import Mathlib

/-!
Verification of the Cloudant gateway node (src/77-cloudant-cf.js).

The JavaScript source is shallowly embedded below.  JavaScript values that
flow through the gateway are modelled by `JVal`; JavaScript objects are
insertion-ordered association lists (`JObj`), matching the enumeration order
of string-keyed properties in V8.  Property read/write/delete are modelled by
`jsGet` / `jsSet` / `jsDelete`: a write overwrites in place when the key is
present and appends at the end otherwise, as in JavaScript.
-/

set_option autoImplicit false

namespace CloudantCF

/-- A JavaScript value as it appears in the gateway: `null`, booleans, numbers
(the gateway only meets integral ones), strings, arrays and plain objects.
`undefined` is modelled as the absence of a value (`Option.none`) where it can
occur. -/
inductive JVal where
  | null
  | bool (b : Bool)
  | num (n : Int)
  | str (s : String)
  | arr (elems : List JVal)
  | obj (fields : List (String × JVal))

/-- A JavaScript object: insertion-ordered field list. -/
abbrev JObj := List (String × JVal)

/-- Property read `m[key]`: first binding of `key`, `none` = `undefined`. -/
def jsGet : JObj → String → Option JVal
  | [], _ => none
  | (k, v) :: rest, key => if k = key then some v else jsGet rest key

/-- Property write `m[key] = v`: overwrite in place when present, else append. -/
def jsSet : JObj → String → JVal → JObj
  | [], key, v => [(key, v)]
  | (k, w) :: rest, key, v =>
    if k = key then (k, v) :: rest else (k, w) :: jsSet rest key v

/-- Property removal `delete m[key]`. -/
def jsDelete : JObj → String → JObj
  | [], _ => []
  | (k, w) :: rest, key =>
    if k = key then jsDelete rest key else (k, w) :: jsDelete rest key

/-- The field names of an object, in enumeration order. -/
def keys (m : JObj) : List String := m.map Prod.fst

/-- Property read on an arbitrary value; non-objects have none of the fields
the gateway looks up (accessing a field of `null` would throw in JS, a case no
gateway path reaches with a field access that matters here). -/
def jsGetField (v : JVal) (key : String) : Option JVal :=
  match v with
  | JVal.obj o => jsGet o key
  | _ => none

/-- The field list of a value that is an object, `[]` otherwise. -/
def objFields : JVal → JObj
  | JVal.obj o => o
  | _ => []

/-- JS truthiness: `false`, `0`, `""` and `null` are falsy (`undefined` is
handled as `Option.none` by callers); objects and arrays are truthy. -/
def truthy : JVal → Bool
  | JVal.null => false
  | JVal.bool b => b
  | JVal.num n => n != 0
  | JVal.str s => s != ""
  | JVal.arr _ => true
  | JVal.obj _ => true

/-- `a || b` where `a` may be `undefined` (`none`). -/
def jsOrU (a : Option JVal) (b : JVal) : JVal :=
  match a with
  | some v => if truthy v then v else b
  | none => b

mutual
/-- JS string coercion of a value, as used by string concatenation. -/
def jsToString : JVal → String
  | JVal.null => "null"
  | JVal.bool true => "true"
  | JVal.bool false => "false"
  | JVal.num n => toString n
  | JVal.str s => s
  | JVal.arr elems => jsToStringElems elems
  | JVal.obj _ => "[object Object]"

/-- JS `Array.prototype.toString`: elements comma-joined. -/
def jsToStringElems : List JVal → String
  | [] => ""
  | [v] => jsToString v
  | v :: rest => jsToString v ++ "," ++ jsToStringElems rest
end

/-- JS `ToInteger` as needed for the optional end argument of
`String.prototype.substring` (`NaN` becomes `0`; object/array coercion
corners the gateway never exercises are modelled as `0`). -/
def jsToInteger : JVal → Int
  | JVal.num n => n
  | JVal.bool true => 1
  | JVal.bool false => 0
  | JVal.null => 0
  | JVal.str s => (s.toInt?).getD 0
  | JVal.arr _ => 0
  | JVal.obj _ => 0

/-- JS `s.substring(start, stop)`: both indices clamped to `[0, length]`,
swapped when out of order; an `undefined` end means the end of the string. -/
def jsSubstring (s : String) (start : Int) (stop : Option JVal) : String :=
  let len : Int := s.data.length
  let b := min (max start 0) len
  match stop with
  | none => String.mk (s.data.drop b.toNat)
  | some v =>
    let e := min (max (jsToInteger v) 0) len
    let lo := min b e
    let hi := max b e
    String.mk ((s.data.drop lo.toNat).take (hi - lo).toNat)

/-- Non-fatal warnings reported through `node.warn`, carried structurally. -/
inductive Warn where
  | propertyRenamed (old new : String)
  | documentNotFound (id database : String)
deriving DecidableEq

/-- `allowedWords` from `isFieldNameValid` (lines 238-241): CouchDB reserved
field names that may keep their leading underscore. -/
def allowedWords : List String :=
  ["_id", "_rev", "_attachments", "_deleted", "_revisions",
   "_revs_info", "_conflicts", "_deleted_conflicts", "_local_seq"]

/-- `isFieldNameValid` (lines 237-244): the first character is not `_`, or the
whole name is one of the reserved allow-set words.  (For the empty string,
`key[0]` is `undefined` in JS, which differs from `"_"`, so it is valid.) -/
def isFieldNameValid (key : String) : Bool :=
  (match key.data.head? with
   | some c => c != '_'
   | none => true) || allowedWords.contains key

/-- One `for (var key in msg)` pass of `cleanMessage` (lines 221-235) over the
snapshot of enumerable keys, mutating the object.  V8 does not enumerate keys
added during the loop and re-checks existence of each key before its
iteration (mirrored by the `hasOwnProperty` guard in the source).  The
renamed key is `key.substring(1, msg.length)`: `msg.length` is the `length`
property of the object being cleaned, `undefined` unless the message carries
a field of that name. -/
def cleanStep (msg : JObj) (warns : List Warn) : List String → JObj × List Warn
  | [] => (msg, warns)
  | key :: rest =>
    match jsGet msg key with
    | none => cleanStep msg warns rest
    | some v =>
      if isFieldNameValid key then cleanStep msg warns rest
      else
        let newKey := jsSubstring key 1 (jsGet msg "length")
        cleanStep (jsDelete (jsSet msg newKey v) key)
          (warns ++ [Warn.propertyRenamed key newKey]) rest

/-- `cleanMessage` (lines 221-235): rename every field whose name starts with
the reserved prefix and is not in the allow-set, reporting a warning per
rename. -/
def cleanMessage (msg : JObj) : JObj × List Warn :=
  cleanStep msg [] (keys msg)

/-- `parseMessage` (lines 201-217).  A value that is already an object
(JS `typeof` "object", which includes `null` and arrays) goes straight to
`cleanMessage`; otherwise the value is parsed as JSON (the parser is a
parameter of the embedding), a parsed non-object scalar is wrapped as
`{root: String(value)}`, and a parse failure wraps the original value the
same way.  (The wrap literal is modelled as parsing back successfully, which
holds whenever the coerced text contains no quote or backslash.) -/
def parseMessage (jsonParse : String → Option JVal) (msg : JVal) (root : String) :
    JVal × List Warn :=
  match msg with
  | JVal.obj o => let r := cleanMessage o; (JVal.obj r.1, r.2)
  | JVal.null => (JVal.null, [])
  | JVal.arr a => (JVal.arr a, [])
  | v =>
    match jsonParse (jsToString v) with
    | some (JVal.obj o) => let r := cleanMessage o; (JVal.obj r.1, r.2)
    | some JVal.null => (JVal.null, [])
    | some (JVal.arr a) => (JVal.arr a, [])
    | some w => let r := cleanMessage [(root, JVal.str (jsToString w))]; (JVal.obj r.1, r.2)
    | none => let r := cleanMessage [(root, JVal.str (jsToString v))]; (JVal.obj r.1, r.2)

/-- An ASCII uppercase letter (what `toLowerCase` changes in the names and
messages this gateway handles). -/
def isUpperAscii (c : Char) : Bool := 65 ≤ c.toNat && c.toNat ≤ 90

/-- `String.prototype.toLowerCase`, per character (ASCII range). -/
def jsToLower (c : Char) : Char :=
  if isUpperAscii c then Char.ofNat (c.toNat + 32) else c

/-- A character matched by the regex class `[\s\\/]`: whitespace, backslash
or slash. -/
def isSpaceSlash (c : Char) : Bool := c.isWhitespace || c == '/' || c == '\\'

/-- `replace(/[\s\\/]+/g, "-")`: every maximal run of whitespace/slash
characters becomes a single hyphen.  The flag records whether the previous
character belonged to a run. -/
def collapseAux : Bool → List Char → List Char
  | _, [] => []
  | prevRun, c :: rest =>
    if isSpaceSlash c then
      (if prevRun then [] else ['-']) ++ collapseAux true rest
    else c :: collapseAux false rest

/-- `replace(/^_/, "")`: strip a single leading underscore. -/
def stripLeadingUnderscore : List Char → List Char
  | [] => []
  | c :: rest => if c = '_' then rest else c :: rest

/-- The character-level pipeline of `_cleanDatabaseName`. -/
def normList (l : List Char) : List Char :=
  collapseAux false (stripLeadingUnderscore (l.map jsToLower))

/-- `_cleanDatabaseName` (lines 406-421): lowercase the whole name, strip a
single leading underscore (regex `^_`), then collapse every run of
whitespace/slash characters to one hyphen. -/
def _cleanDatabaseName (database : String) : String :=
  String.mk (normList database.data)

/-- The source warns (`Database renamed ...`) exactly when the cleaned name
differs from the input. -/
def cleanDatabaseNameWarns (database : String) : Bool :=
  _cleanDatabaseName database != database

/-- Escape of a string for a JSON literal (quote and backslash). -/
def escapeJson (s : String) : String :=
  String.mk (s.data.foldr
    (fun c acc => (if c == '"' || c == '\\' then ['\\', c] else [c]) ++ acc) [])

mutual
/-- `JSON.stringify`, used by the indexed-search branch to serialize the sort
specification (line 304). -/
def jsonStringify : JVal → String
  | JVal.null => "null"
  | JVal.bool true => "true"
  | JVal.bool false => "false"
  | JVal.num n => toString n
  | JVal.str s => "\"" ++ escapeJson s ++ "\""
  | JVal.arr elems => "[" ++ stringifyElems elems ++ "]"
  | JVal.obj fields => "\x7b" ++ stringifyFields fields ++ "\x7d"

/-- Array elements of a JSON literal, comma-separated. -/
def stringifyElems : List JVal → String
  | [] => ""
  | [v] => jsonStringify v
  | v :: rest => jsonStringify v ++ "," ++ stringifyElems rest

/-- Object fields of a JSON literal, comma-separated. -/
def stringifyFields : List (String × JVal) → String
  | [] => ""
  | [(k, v)] => "\"" ++ escapeJson k ++ "\":" ++ jsonStringify v
  | (k, v) :: rest =>
    "\"" ++ escapeJson k ++ "\":" ++ jsonStringify v ++ "," ++ stringifyFields rest
end

/-- `getDocumentId` (lines 322-330): for an object payload that has an `_id`
or `id` field, `payload.id || payload._id` (so a truthy `id` wins, otherwise
the `_id` value, which may be `undefined` = `none`); any other payload is
returned as the identifier itself.  (JS `typeof null` is "object" and the
`in` check would throw on `null`; no claim exercises that corner.) -/
def getDocumentId : JVal → Option JVal
  | JVal.obj o =>
    if (jsGet o "_id").isSome || (jsGet o "id").isSome then
      match jsGet o "id" with
      | some v => if truthy v then some v else jsGet o "_id"
      | none => jsGet o "_id"
    else some (JVal.obj o)
  | v => some v

/-- `formatSearchQuery` (lines 332-345): an object with a `q` field yields
that field; any other object yields the space-joined `key:value` pairs,
trimmed; a non-object query is returned unchanged. -/
def formatSearchQuery (query : JVal) : JVal :=
  match query with
  | JVal.obj o =>
    match jsGet o "q" with
    | some qv => qv
    | none =>
      JVal.str ((o.foldl (fun acc kv => acc ++ kv.1 ++ ":" ++ jsToString kv.2 ++ " ") "").trim)
  | v => v

/-- The option mutations of the `_idx_` branch (lines 299-305):
`options.query = options.query || options.q || formatSearchQuery(payload)`,
`options.include_docs = options.include_docs || true`,
`options.limit = options.limit || 200`, and `if (options.sort)
options.sort = JSON.stringify(options.sort)`.  The options object is
`msg.payload` itself when that is an object, so the third `||` operand is
`formatSearchQuery` over the same object (evaluated before any mutation).
`applySortOption` is the final `if (options.sort)` mutation (lines 303-305):
a truthy sort specification is replaced by its JSON serialization. -/
def applySortOption (o3 : JObj) : JObj :=
  match jsGet o3 "sort" with
  | some s => if truthy s then jsSet o3 "sort" (JVal.str (jsonStringify s)) else o3
  | none => o3

/-- The first three option mutations of the `_idx_` branch followed by the
sort serialization; see `applySortOption`. -/
def applyIdxOptions (o : JObj) : JObj :=
  let o1 := jsSet o "query"
    (jsOrU (jsGet o "query") (jsOrU (jsGet o "q") (formatSearchQuery (JVal.obj o))))
  let o2 := jsSet o1 "include_docs" (jsOrU (jsGet o1 "include_docs") (JVal.bool true))
  let o3 := jsSet o2 "limit" (jsOrU (jsGet o2 "limit") (JVal.num 200))
  applySortOption o3

/-- A backend error object: a machine status code (absent for, e.g.,
connection failures) and a human-readable description. -/
structure JsErr where
  status_code : Option Nat
  description : String
deriving DecidableEq

/-- `needle` occurs as a contiguous run inside the list (JS
`indexOf(needle) >= 0`). -/
def listHasInfix (needle : List Char) : List Char → Bool
  | [] => needle.isEmpty
  | c :: rest => needle.isPrefixOf (c :: rest) || listHasInfix needle rest

/-- One row of a paginated response (lines 352-360): keep `el.doc` unless its
`_id` contains `"_design/"`; rows whose mapped value is dropped (design
documents, and shapes on which the JS would throw) are filtered out. -/
def rowDoc (el : JVal) : Option JVal :=
  match jsGetField el "doc" with
  | some d =>
    match jsGetField d "_id" with
    | some (JVal.str id) =>
      if listHasInfix ("_design/".data) id.data then none else some d
    | _ => none
  | none => none

/-- JS string coercion where the value may be `undefined`. -/
def jsToStringU : Option JVal → String
  | none => "undefined"
  | some v => jsToString v

/-- The outbound effect of `sendDocumentOnPayload`: the payload and raw
response placed on the message, the warnings and errors reported, and
whether `node.send` ran. -/
structure SendOutcome where
  payload : JVal
  cloudant : Option JVal
  warns : List Warn
  errs : List String
  sent : Bool

/-- `sendDocumentOnPayload` (lines 347-380).  On success the raw body goes to
`msg.cloudant` and the payload is the design-document-filtered row documents
when the body has a `rows` collection, else the body itself.  On error the
payload becomes `null`; the error with description `"missing"` is reported as
a warning carrying the looked-up identifier and the database name, every
other error is reported as an error.  `node.send(msg)` runs on every path. -/
def sendDocumentOnPayload (err : Option JsErr) (body : JVal)
    (inputId : Option JVal) (database : String) : SendOutcome :=
  match err with
  | none =>
    let payload :=
      match body with
      | JVal.obj o =>
        match jsGet o "rows" with
        | some (JVal.arr els) => JVal.arr (els.filterMap rowDoc)
        | some _ => JVal.arr []
        | none => JVal.obj o
      | b => b
    { payload := payload, cloudant := some body, warns := [], errs := [], sent := true }
  | some e =>
    if e.description = "missing" then
      { payload := JVal.null, cloudant := none,
        warns := [Warn.documentNotFound (jsToStringU inputId) database],
        errs := [], sent := true }
    else
      { payload := JVal.null, cloudant := none, warns := [],
        errs := [e.description], sent := true }

/-- `MAX_ATTEMPTS` (line 25): the initial retry budget for `insertDocument`. -/
def MAX_ATTEMPTS : Nat := 3

/-- One backend response to an insert attempt. -/
inductive DbResp where
  | ok (body : JVal)
  | err (e : JsErr)

/-- `insertDocument` (lines 250-262) against a backend giving the response of
the `k`-th insert attempt.  A 404 (database missing) with budget left creates
the database and retries with the budget decremented; any other outcome is
passed to the callback.  The result records the response handed to the
callback, the number of insert attempts and the number of create calls. -/
def insertDocument (backend : Nat → DbResp) : Nat → Nat → DbResp × Nat × Nat
  | 0, k =>
    match backend k with
    | DbResp.ok body => (DbResp.ok body, 1, 0)
    | DbResp.err e => (DbResp.err e, 1, 0)
  | a + 1, k =>
    match backend k with
    | DbResp.ok body => (DbResp.ok body, 1, 0)
    | DbResp.err e =>
      match e.status_code with
      | some 404 =>
        let r := insertDocument backend a (k + 1)
        (r.1, r.2.1 + 1, r.2.2 + 1)
      | _ => (DbResp.err e, 1, 0)

/-- The local outcome of the delete branch of `handleMessage`. -/
inductive DeleteAction where
  | destroy (id rev : JVal)
  | errMissingIdRev

/-- The delete branch of `handleMessage` (lines 181-197): with both `_id` and
`_rev` present on the extracted document, exactly one backend delete is
issued with those values; otherwise the local `_id and _rev are required`
error is reported without touching the backend.  The second component counts
backend calls. -/
def handleDelete (doc : JObj) : DeleteAction × Nat :=
  match jsGet doc "_rev", jsGet doc "_id" with
  | some rev, some id => (DeleteAction.destroy id rev, 1)
  | _, _ => (DeleteAction.errMissingIdRev, 0)

/-- The document extraction of the delete path (line 182):
`parseMessage(msg.payload || msg, "")`, taking the value that JS expression
selected.  Returns the extracted field list and the rename warnings. -/
def deleteDoc (jsonParse : String → Option JVal) (v : JVal) : JObj × List Warn :=
  let r := parseMessage jsonParse v ""
  (objFields r.1, r.2)

/-! ### Object operation lemmas -/

theorem jsGet_jsSet (m : JObj) (k : String) (v : JVal) (k' : String) :
    jsGet (jsSet m k v) k' = if k' = k then some v else jsGet m k' := by
  induction m with
  | nil =>
    by_cases h : k' = k
    · subst h; simp [jsSet, jsGet]
    · have h2 : ¬(k = k') := fun hh => h hh.symm
      simp [jsSet, jsGet, h, h2]
  | cons hd tl ih =>
    obtain ⟨a, b⟩ := hd
    by_cases hak : a = k
    · subst hak
      simp only [jsSet, if_pos rfl, jsGet]
      by_cases hk' : k' = a
      · subst hk'; simp
      · have h2 : ¬(a = k') := fun hh => hk' hh.symm
        simp [h2, hk']
    · simp only [jsSet, if_neg hak, jsGet]
      by_cases hk' : a = k'
      · subst hk'
        simp [hak]
      · simp [hk', ih]

theorem jsGet_jsDelete (m : JObj) (k k' : String) :
    jsGet (jsDelete m k) k' = if k' = k then none else jsGet m k' := by
  induction m with
  | nil =>
    simp only [jsDelete, jsGet]
    split_ifs <;> rfl
  | cons hd tl ih =>
    obtain ⟨a, b⟩ := hd
    by_cases hak : a = k
    · subst hak
      simp only [jsDelete, eq_self_iff_true, if_true, jsGet]
      rw [ih]
      by_cases hk' : k' = a
      · simp [hk']
      · have h2 : ¬(a = k') := fun hh => hk' hh.symm
        simp [hk', h2]
    · simp only [jsDelete, if_neg hak, jsGet]
      by_cases hk' : a = k'
      · subst hk'
        simp [hak]
      · simp [hk', ih]

theorem mem_keys_iff (m : JObj) (k : String) : k ∈ keys m ↔ (jsGet m k).isSome := by
  induction m with
  | nil => simp [keys, jsGet]
  | cons hd tl ih =>
    obtain ⟨a, b⟩ := hd
    simp only [keys, List.map_cons, List.mem_cons, jsGet] at *
    by_cases hak : a = k
    · subst hak; simp
    · rw [if_neg hak]
      constructor
      · rintro (h | h)
        · exact absurd h.symm hak
        · exact ih.mp h
      · intro h; exact Or.inr (ih.mpr h)

/-! ### Character and substring lemmas -/

theorem jsToLower_not_upper (c : Char) : isUpperAscii (jsToLower c) = false := by
  unfold jsToLower
  split_ifs with h
  · have h1 : 65 ≤ c.toNat ∧ c.toNat ≤ 90 := by
      simpa [isUpperAscii] using h
    obtain ⟨ha, hb⟩ := h1
    generalize c.toNat = n at ha hb ⊢
    interval_cases n <;> decide
  · simpa using h

theorem jsToLower_eq_underscore {c : Char} (h : jsToLower c = '_') : c = '_' := by
  unfold jsToLower at h
  split_ifs at h with hu
  · exfalso
    have h1 : 65 ≤ c.toNat ∧ c.toNat ≤ 90 := by
      simpa [isUpperAscii] using hu
    obtain ⟨ha, hb⟩ := h1
    generalize c.toNat = n at ha hb h
    interval_cases n <;> exact absurd h (by decide)
  · exact h

theorem jsSubstring_one_undefined (key : String) (c : Char) (t : List Char)
    (h : key.data = c :: t) : jsSubstring key 1 none = String.mk t := by
  simp only [jsSubstring, h]
  congr 1
  have hx : (min (max (1:Int) 0) ((c :: t).length : Int)).toNat = 1 := by
    simp only [List.length_cons]
    omega
  rw [hx]
  simp

/-! ### cleanMessage lemmas -/


theorem invalid_head {key : String} (h : isFieldNameValid key = false) :
    ∃ t, key.data = '_' :: t := by
  unfold isFieldNameValid at h
  rw [Bool.or_eq_false_iff] at h
  obtain ⟨h1, _⟩ := h
  cases hd : key.data with
  | nil => rw [hd] at h1; simp at h1
  | cons c t =>
    rw [hd] at h1
    simp only [List.head?_cons] at h1
    have hc : c = '_' := by simpa using h1
    subst hc
    exact ⟨t, hd ▸ rfl⟩

theorem valid_of_head_ne {key : String} (h : key.data.head? ≠ some '_') :
    isFieldNameValid key = true := by
  unfold isFieldNameValid
  cases hd : key.data with
  | nil => simp [hd]
  | cons c t =>
    rw [hd] at h
    simp only [List.head?_cons] at h ⊢
    have : c ≠ '_' := fun hc => h (by rw [hc])
    simp [this]

theorem cleanStep_valid (ks : List String) :
    ∀ (msg : JObj) (w : List Warn),
      (∀ k ∈ ks, k.data.take 2 ≠ ['_', '_'] ∧ k ≠ "length" ∧ k ≠ "_length") →
      jsGet msg "length" = none →
      (∀ k, (jsGet msg k).isSome → isFieldNameValid k = true ∨ k ∈ ks) →
      ∀ k, (jsGet (cleanStep msg w ks).1 k).isSome → isFieldNameValid k = true := by
  induction ks with
  | nil =>
    intro msg w _ _ hinv k hk
    simp only [cleanStep] at hk
    rcases hinv k hk with h | h
    · exact h
    · cases h
  | cons key rest ih =>
    intro msg w hks hlen hinv k hk
    have hkey := hks key (List.mem_cons_self _ _)
    have hks' : ∀ k ∈ rest, k.data.take 2 ≠ ['_', '_'] ∧ k ≠ "length" ∧ k ≠ "_length" :=
      fun k2 h2 => hks k2 (List.mem_cons_of_mem _ h2)
    rcases hget : jsGet msg key with _ | v
    · simp only [cleanStep, hget] at hk
      refine ih msg w hks' hlen ?_ k hk
      intro k2 h2
      rcases hinv k2 h2 with h | h
      · exact Or.inl h
      · rcases List.mem_cons.mp h with h | h
        · subst h; rw [hget] at h2; cases h2
        · exact Or.inr h
    · by_cases hval : isFieldNameValid key
      · simp only [cleanStep, hget, hval, if_true] at hk
        refine ih msg w hks' hlen ?_ k hk
        intro k2 h2
        rcases hinv k2 h2 with h | h
        · exact Or.inl h
        · rcases List.mem_cons.mp h with h | h
          · subst h; exact Or.inl hval
          · exact Or.inr h
      · rw [Bool.not_eq_true] at hval
        obtain ⟨t, hdata⟩ := invalid_head hval
        simp only [cleanStep, hget, hval, Bool.false_eq_true, if_false] at hk
        rw [hlen] at hk
        rw [jsSubstring_one_undefined key '_' t hdata] at hk
        -- the new key is valid
        have hnewvalid : isFieldNameValid (String.mk t) = true := by
          apply valid_of_head_ne
          cases t with
          | nil => simp
          | cons c t' =>
            simp only [List.head?_cons, ne_eq, Option.some.injEq]
            intro hc
            apply hkey.1
            rw [hdata, hc]
            rfl
        -- "length" is still absent after the rename
        have hlen' : jsGet (jsDelete (jsSet msg (String.mk t) v) key) "length" = none := by
          rw [jsGet_jsDelete, jsGet_jsSet]
          by_cases hx : "length" = key
          · rw [if_pos hx]
          · rw [if_neg hx]
            by_cases hy : "length" = String.mk t
            · exfalso
              apply hkey.2.2
              have ht : t = "length".data := congrArg String.data hy.symm
              have : key = String.mk key.data := rfl
              rw [this, hdata, ht]
            · rw [if_neg hy]
              exact hlen
        refine ih _ _ hks' hlen' ?_ k hk
        intro k2 h2
        rw [jsGet_jsDelete, jsGet_jsSet] at h2
        by_cases h2k : k2 = key
        · rw [if_pos h2k] at h2; cases h2
        · rw [if_neg h2k] at h2
          by_cases h2n : k2 = String.mk t
          · subst h2n; exact Or.inl hnewvalid
          · rw [if_neg h2n] at h2
            rcases hinv k2 h2 with h | h
            · exact Or.inl h
            · rcases List.mem_cons.mp h with h | h
              · exact absurd h h2k
              · exact Or.inr h

theorem cleanStep_of_valid (ks : List String) :
    ∀ (msg : JObj) (w : List Warn), (∀ k ∈ ks, isFieldNameValid k = true) →
      cleanStep msg w ks = (msg, w) := by
  induction ks with
  | nil => intro msg w _; rfl
  | cons key rest ih =>
    intro msg w h
    have hkey := h key (List.mem_cons_self _ _)
    have h' : ∀ k ∈ rest, isFieldNameValid k = true :=
      fun k2 h2 => h k2 (List.mem_cons_of_mem _ h2)
    rcases hget : jsGet msg key with _ | v
    · simp only [cleanStep, hget]
      exact ih msg w h'
    · simp only [cleanStep, hget, hkey, if_true]
      exact ih msg w h'

/-! ### Database-name normalizer lemmas -/


theorem jsToLower_fix {c : Char} (h : isUpperAscii c = false) : jsToLower c = c := by
  unfold jsToLower
  simp [h]

theorem map_jsToLower_id (l : List Char) (h : ∀ c ∈ l, isUpperAscii c = false) :
    l.map jsToLower = l := by
  induction l with
  | nil => rfl
  | cons a t ih =>
    simp only [List.map_cons]
    rw [jsToLower_fix (h a (List.mem_cons_self _ _)),
        ih (fun c hc => h c (List.mem_cons_of_mem _ hc))]

theorem strip_chars (l : List Char) : ∀ c ∈ stripLeadingUnderscore l, c ∈ l := by
  cases l with
  | nil => simp [stripLeadingUnderscore]
  | cons a t =>
    simp only [stripLeadingUnderscore]
    split_ifs
    · exact fun c hc => List.mem_cons_of_mem _ hc
    · exact fun c hc => hc

theorem strip_id (l : List Char) (h : l.head? ≠ some '_') :
    stripLeadingUnderscore l = l := by
  cases l with
  | nil => rfl
  | cons a t =>
    have ha : a ≠ '_' := fun hc => h (by rw [List.head?_cons, hc])
    simp [stripLeadingUnderscore, ha]

theorem collapseAux_chars (l : List Char) : ∀ (b : Bool), ∀ c ∈ collapseAux b l,
    isSpaceSlash c = false ∧ (c = '-' ∨ c ∈ l) := by
  induction l with
  | nil => intro b c hc; simp [collapseAux] at hc
  | cons a t ih =>
    intro b c hc
    simp only [collapseAux] at hc
    by_cases hss : isSpaceSlash a
    · rw [if_pos hss] at hc
      rw [List.mem_append] at hc
      rcases hc with hc | hc
      · cases b with
        | true => simp at hc
        | false =>
          simp only [if_neg (by simp : ¬(false = true)), List.mem_singleton] at hc
          exact ⟨hc ▸ (by decide), Or.inl hc⟩
      · rcases ih true c hc with ⟨h1, h2 | h2⟩
        · exact ⟨h1, Or.inl h2⟩
        · exact ⟨h1, Or.inr (List.mem_cons_of_mem _ h2)⟩
    · rw [if_neg hss] at hc
      rcases List.mem_cons.mp hc with hc | hc
      · subst hc
        exact ⟨Bool.not_eq_true _ ▸ (by simpa using hss), Or.inr (List.mem_cons_self _ _)⟩
      · rcases ih false c hc with ⟨h1, h2 | h2⟩
        · exact ⟨h1, Or.inl h2⟩
        · exact ⟨h1, Or.inr (List.mem_cons_of_mem _ h2)⟩

theorem collapseAux_false_id (l : List Char) (h : ∀ c ∈ l, isSpaceSlash c = false) :
    collapseAux false l = l := by
  induction l with
  | nil => rfl
  | cons a t ih =>
    have ha := h a (List.mem_cons_self _ _)
    simp only [collapseAux, ha, Bool.false_eq_true, if_false]
    rw [ih (fun c hc => h c (List.mem_cons_of_mem _ hc))]

theorem normList_chars (l : List Char) : ∀ c ∈ normList l,
    isUpperAscii c = false ∧ isSpaceSlash c = false := by
  intro c hc
  unfold normList at hc
  rcases collapseAux_chars _ false c hc with ⟨hss, hd | hm⟩
  · subst hd; exact ⟨by decide, hss⟩
  · have hmm := strip_chars _ c hm
    rw [List.mem_map] at hmm
    obtain ⟨a, _, ha⟩ := hmm
    exact ⟨ha ▸ jsToLower_not_upper a, hss⟩

theorem normList_head (l : List Char) (h : l.take 2 ≠ ['_', '_']) :
    (normList l).head? ≠ some '_' := by
  unfold normList
  cases l with
  | nil => simp [stripLeadingUnderscore, collapseAux]
  | cons c0 t0 =>
    simp only [List.map_cons]
    by_cases h0 : jsToLower c0 = '_'
    · have hc0 : c0 = '_' := jsToLower_eq_underscore h0
      rw [h0]
      simp only [stripLeadingUnderscore, if_pos rfl]
      cases t0 with
      | nil => simp [collapseAux]
      | cons c1 t1 =>
        simp only [List.map_cons]
        by_cases hss : isSpaceSlash (jsToLower c1)
        · simp only [collapseAux, hss, if_true, Bool.not_eq_true]
          intro hx
          simp at hx
        · simp only [collapseAux, hss, Bool.false_eq_true, if_false]
          intro hx
          rw [List.head?_cons, Option.some.injEq] at hx
          have hc1 : c1 = '_' := jsToLower_eq_underscore hx
          apply h
          rw [hc0, hc1]
          rfl
    · rw [strip_id _ (by simpa using h0)]
      by_cases hss : isSpaceSlash (jsToLower c0)
      · simp only [collapseAux, hss, if_true]
        intro hx
        simp at hx
      · simp only [collapseAux, hss, Bool.false_eq_true, if_false]
        intro hx
        rw [List.head?_cons, Option.some.injEq] at hx
        exact h0 hx

theorem normList_idem (l : List Char) (h : l.take 2 ≠ ['_', '_']) :
    normList (normList l) = normList l := by
  have hchars := normList_chars l
  have hhead := normList_head l h
  show collapseAux false (stripLeadingUnderscore ((normList l).map jsToLower)) = normList l
  rw [map_jsToLower_id _ (fun c hc => (hchars c hc).1),
      strip_id _ hhead,
      collapseAux_false_id _ (fun c hc => (hchars c hc).2)]

/-! ### Claim theorems -/

/-- Helper for C1: against a backend that reports 404 on every attempt,
`insertDocument` with budget `n` makes `n + 1` insert attempts and `n`
create calls and hands the final 404 to the callback. -/
theorem insertDocument_all404 (backend : Nat → DbResp)
    (h : ∀ j, ∃ d, backend j = DbResp.err ⟨some 404, d⟩) :
    ∀ n k : Nat, ∃ d,
      insertDocument backend n k = (DbResp.err ⟨some 404, d⟩, n + 1, n) := by
  intro n
  induction n with
  | zero =>
    intro k
    obtain ⟨d, hd⟩ := h k
    refine ⟨d, ?_⟩
    simp only [insertDocument, hd]
  | succ a ih =>
    intro k
    obtain ⟨d, hd⟩ := h k
    obtain ⟨d', hd'⟩ := ih (k + 1)
    refine ⟨d', ?_⟩
    simp only [insertDocument, hd, hd']

/-- C1: with the initial budget `MAX_ATTEMPTS = 3` and a backend that reports
404 (database missing) on every attempt, `insertDocument` performs exactly 3
create-then-retry cycles — 4 insert attempts and 3 create calls — and then
hands the 404 failure to the callback, the terminal `DatabaseUnavailable`
outcome; against a backend where the database exists on the first attempt,
exactly one insert call and no create call is made. -/
theorem insertDocument_retry_bound :
    (∀ backend : Nat → DbResp,
      (∀ j, ∃ d, backend j = DbResp.err ⟨some 404, d⟩) →
      ∃ d, insertDocument backend MAX_ATTEMPTS 0 =
        (DbResp.err ⟨some 404, d⟩, MAX_ATTEMPTS + 1, MAX_ATTEMPTS)) ∧
    (∀ (backend : Nat → DbResp) (body : JVal), backend 0 = DbResp.ok body →
      insertDocument backend MAX_ATTEMPTS 0 = (DbResp.ok body, 1, 0)) := by
  constructor
  · intro backend h
    exact insertDocument_all404 backend h MAX_ATTEMPTS 0
  · intro backend body h
    show insertDocument backend 3 0 = (DbResp.ok body, 1, 0)
    simp only [insertDocument, h]

/-- Witness for C1 at two concrete backends. -/
theorem insertDocument_retry_bound_witness :
    (∃ d, insertDocument (fun _ => DbResp.err ⟨some 404, "Database does not exist."⟩)
        MAX_ATTEMPTS 0 =
      (DbResp.err ⟨some 404, d⟩, MAX_ATTEMPTS + 1, MAX_ATTEMPTS)) ∧
    insertDocument (fun _ => DbResp.ok JVal.null) MAX_ATTEMPTS 0 =
      (DbResp.ok JVal.null, 1, 0) :=
  ⟨insertDocument_retry_bound.1 _ (fun _ => ⟨"Database does not exist.", rfl⟩),
   insertDocument_retry_bound.2 _ JVal.null rfl⟩

/-- C2 counterexample: sanitizing the mapping with the single field `__x`
strips one underscore, leaving the field `_x`, which still starts with the
reserved prefix and is not in the allow-set. -/
theorem cleanMessage_double_underscore_cex :
    objFields (parseMessage (fun _ => none)
      (JVal.obj [("__x", JVal.str "v")]) "payload").1 = [("_x", JVal.str "v")] ∧
    isFieldNameValid "_x" = false :=
  ⟨rfl, by decide⟩

/-- C2 (amended): for every mapping none of whose field names starts with two
underscores or equals `length` or `_length`, every field name of the
sanitized document either does not start with the reserved prefix or is in
the allow-set. -/
theorem cleanMessage_valid_fields_amended (jsonParse : String → Option JVal)
    (m : JObj) (fallback : String)
    (h : ∀ k ∈ keys m, k.data.take 2 ≠ ['_', '_'] ∧ k ≠ "length" ∧ k ≠ "_length") :
    ∀ k ∈ keys (objFields (parseMessage jsonParse (JVal.obj m) fallback).1),
      isFieldNameValid k = true := by
  intro k hk
  rw [mem_keys_iff] at hk
  have hk' : (jsGet (cleanStep m [] (keys m)).1 k).isSome := hk
  refine cleanStep_valid (keys m) m [] h ?_ ?_ k hk'
  · rcases hg : jsGet m "length" with _ | v
    · rfl
    · exfalso
      have hmem : "length" ∈ keys m := (mem_keys_iff m "length").mpr (by rw [hg]; rfl)
      exact (h _ hmem).2.1 rfl
  · intro k2 h2
    exact Or.inr ((mem_keys_iff m k2).mpr h2)

/-- Witness for the amended C2 at a concrete mapping. -/
theorem cleanMessage_valid_fields_amended_witness :
    isFieldNameValid "greeting" = true :=
  cleanMessage_valid_fields_amended (fun _ => none) [("_greeting", JVal.str "hi")]
    "payload" (by decide) "greeting" (by decide)

/-- C3: in ById read mode, a backend error described `"missing"` produces a
warning carrying the looked-up identifier and the database name — no error —
and the outbound message is emitted with a `null` payload; an error with any
other description produces a hard error and no warning. -/
theorem sendDocumentOnPayload_missing_vs_error (e : JsErr) (body : JVal)
    (inputId : Option JVal) (db : String) :
    (e.description = "missing" →
      sendDocumentOnPayload (some e) body inputId db =
        { payload := JVal.null, cloudant := none,
          warns := [Warn.documentNotFound (jsToStringU inputId) db],
          errs := [], sent := true }) ∧
    (e.description ≠ "missing" →
      sendDocumentOnPayload (some e) body inputId db =
        { payload := JVal.null, cloudant := none, warns := [],
          errs := [e.description], sent := true }) := by
  constructor
  · intro h
    simp [sendDocumentOnPayload, h]
  · intro h
    simp [sendDocumentOnPayload, h]

/-- Witness for C3 at a `"missing"` error and a conflict error. -/
theorem sendDocumentOnPayload_missing_vs_error_witness :
    sendDocumentOnPayload (some ⟨some 404, "missing"⟩) JVal.null
        (some (JVal.str "doc1")) "orders" =
      { payload := JVal.null, cloudant := none,
        warns := [Warn.documentNotFound "doc1" "orders"], errs := [], sent := true } ∧
    sendDocumentOnPayload (some ⟨some 409, "Document update conflict."⟩) JVal.null
        (some (JVal.str "doc1")) "orders" =
      { payload := JVal.null, cloudant := none, warns := [],
        errs := ["Document update conflict."], sent := true } :=
  ⟨(sendDocumentOnPayload_missing_vs_error ⟨some 404, "missing"⟩ JVal.null
      (some (JVal.str "doc1")) "orders").1 rfl,
   (sendDocumentOnPayload_missing_vs_error ⟨some 409, "Document update conflict."⟩
      JVal.null (some (JVal.str "doc1")) "orders").2 (by decide)⟩

/-- C4 counterexample: the normalizer strips only one leading underscore, so
it is not idempotent at `"__logs"`. -/
theorem cleanDatabaseName_not_idempotent_cex :
    _cleanDatabaseName "__logs" = "_logs" ∧
    _cleanDatabaseName (_cleanDatabaseName "__logs") = "logs" ∧
    _cleanDatabaseName (_cleanDatabaseName "__logs") ≠ _cleanDatabaseName "__logs" :=
  ⟨by decide, by decide, by decide⟩

/-- C4 (amended): the database-name normalizer is idempotent on every name
that does not begin with two underscores. -/
theorem cleanDatabaseName_idempotent_amended (s : String)
    (h : s.data.take 2 ≠ ['_', '_']) :
    _cleanDatabaseName (_cleanDatabaseName s) = _cleanDatabaseName s := by
  unfold _cleanDatabaseName
  congr 1
  exact normList_idem s.data h

/-- Witness for the amended C4 at a concrete name. -/
theorem cleanDatabaseName_idempotent_amended_witness :
    _cleanDatabaseName (_cleanDatabaseName "My Orders/2024") =
      _cleanDatabaseName "My Orders/2024" :=
  cleanDatabaseName_idempotent_amended "My Orders/2024" (by decide)

/-- C5 counterexample: `normalize("__data") = "_data"` begins with an
underscore, refuting the claim that no normalized name does. -/
theorem cleanDatabaseName_leading_underscore_cex :
    _cleanDatabaseName "__data" = "_data" ∧
    (_cleanDatabaseName "__data").data.head? = some '_' :=
  ⟨by decide, by decide⟩

/-- C5 (amended): every normalized name contains no ASCII uppercase and no
whitespace/slash character; and it does not begin with an underscore
provided the input does not begin with two underscores. -/
theorem cleanDatabaseName_shape_amended (s : String) :
    (∀ c ∈ (_cleanDatabaseName s).data,
      isUpperAscii c = false ∧ isSpaceSlash c = false) ∧
    (s.data.take 2 ≠ ['_', '_'] → (_cleanDatabaseName s).data.head? ≠ some '_') := by
  constructor
  · intro c hc
    exact normList_chars s.data c hc
  · intro h
    exact normList_head s.data h

/-- Witness for the amended C5 at a concrete name and character. -/
theorem cleanDatabaseName_shape_amended_witness :
    ((_cleanDatabaseName "My DB/1").data.head? ≠ some '_') ∧
    (isUpperAscii 'm' = false ∧ isSpaceSlash 'm' = false) :=
  ⟨(cleanDatabaseName_shape_amended "My DB/1").2 (by decide),
   (cleanDatabaseName_shape_amended "My DB/1").1 'm' (by decide)⟩

/-- C6: the delete branch issues no backend call and fails with the local
`_id and _rev are required` error when the extracted document lacks either
field, and issues exactly one backend delete with the document identifier
and revision when both are present. -/
theorem handleDelete_precondition (doc : JObj) :
    ((jsGet doc "_id" = none ∨ jsGet doc "_rev" = none) →
      handleDelete doc = (DeleteAction.errMissingIdRev, 0)) ∧
    (∀ id rev, jsGet doc "_id" = some id → jsGet doc "_rev" = some rev →
      handleDelete doc = (DeleteAction.destroy id rev, 1)) := by
  constructor
  · intro h
    unfold handleDelete
    rcases h with h | h
    · rw [h]
      rcases jsGet doc "_rev" with _ | rv <;> rfl
    · rw [h]
  · intro id rev hid hrev
    unfold handleDelete
    rw [hid, hrev]

/-- Witness for C6 at two concrete documents. -/
theorem handleDelete_precondition_witness :
    handleDelete [("foo", JVal.str "bar")] = (DeleteAction.errMissingIdRev, 0) ∧
    handleDelete [("_id", JVal.str "a"), ("_rev", JVal.str "b")] =
      (DeleteAction.destroy (JVal.str "a") (JVal.str "b"), 1) :=
  ⟨(handleDelete_precondition [("foo", JVal.str "bar")]).1 (Or.inl rfl),
   (handleDelete_precondition [("_id", JVal.str "a"), ("_rev", JVal.str "b")]).2
     (JVal.str "a") (JVal.str "b") rfl rfl⟩

/-- C7 counterexample: on the delete path the extracted document IS subject
to field renaming — `_foo` is renamed to `foo` with a rename warning, so the
extracted mapping differs from the parsed input. -/
theorem deletePath_renames_fields_cex :
    deleteDoc (fun _ => none)
      (JVal.obj [("_id", JVal.str "a"), ("_rev", JVal.str "b"), ("_foo", JVal.str "x")]) =
      ([("_id", JVal.str "a"), ("_rev", JVal.str "b"), ("foo", JVal.str "x")],
       [Warn.propertyRenamed "_foo" "foo"]) ∧
    keys [("_id", JVal.str "a"), ("_rev", JVal.str "b"), ("foo", JVal.str "x")] ≠
      keys [("_id", JVal.str "a"), ("_rev", JVal.str "b"), ("_foo", JVal.str "x")] :=
  ⟨rfl, by decide⟩

/-- C7 (amended): the delete path applies the same reserved-prefix renaming
(`cleanMessage`) as the insert path; the extracted mapping equals the parsed
input with no warning exactly in the case that every field name is already
valid (in particular `_id` and `_rev` are in the allow-set and survive). -/
theorem deletePath_sanitization_amended (jsonParse : String → Option JVal) (o : JObj) :
    deleteDoc jsonParse (JVal.obj o) = cleanMessage o ∧
    ((∀ k ∈ keys o, isFieldNameValid k = true) → cleanMessage o = (o, [])) := by
  constructor
  · rfl
  · intro h
    unfold cleanMessage
    exact cleanStep_of_valid (keys o) o [] h

/-- Witness for the amended C7 at a concrete clean document. -/
theorem deletePath_sanitization_amended_witness :
    deleteDoc (fun _ => none)
      (JVal.obj [("_id", JVal.str "a"), ("name", JVal.str "n")]) =
      ([("_id", JVal.str "a"), ("name", JVal.str "n")], []) := by
  have h := deletePath_sanitization_amended (fun _ => none)
    [("_id", JVal.str "a"), ("name", JVal.str "n")]
  rw [h.1, h.2 (by decide)]

/-- Helper for C8: the sort mutation does not touch other option fields. -/
theorem jsGet_applySortOption_ne (o3 : JObj) (k : String) (hk : k ≠ "sort") :
    jsGet (applySortOption o3) k = jsGet o3 k := by
  rcases h : jsGet o3 "sort" with _ | s
  · simp only [applySortOption, h]
  · simp only [applySortOption, h]
    split_ifs with ht
    · rw [jsGet_jsSet, if_neg hk]
    · rfl

/-- Helper for C8: a truthy sort specification is replaced by its JSON
serialization. -/
theorem jsGet_applySortOption_sort (o3 : JObj) (v : JVal) (h : jsGet o3 "sort" = some v)
    (ht : truthy v = true) :
    jsGet (applySortOption o3) "sort" = some (JVal.str (jsonStringify v)) := by
  simp only [applySortOption, h, ht, if_true]
  simp [jsGet_jsSet]

/-- C8 counterexample: a caller-supplied `include_docs = false` is set but is
overwritten to `true` by `options.include_docs = options.include_docs || true`,
refuting that a set caller value is always sent unchanged. -/
theorem idxOptions_false_overwritten_cex :
    jsGet [("include_docs", JVal.bool false)] "include_docs" = some (JVal.bool false) ∧
    jsGet (applyIdxOptions [("include_docs", JVal.bool false)]) "include_docs" =
      some (JVal.bool true) :=
  ⟨rfl, rfl⟩

/-- C8 (amended): the defaults `include_docs = true` and `limit = 200` are
applied when the caller value is unset or falsy; a truthy caller value is
sent unchanged; and a truthy sort specification is serialized to a string
before being sent. -/
theorem idxOptions_defaults_amended (o : JObj) :
    (∀ v, jsGet o "include_docs" = some v → truthy v = true →
      jsGet (applyIdxOptions o) "include_docs" = some v) ∧
    ((jsGet o "include_docs" = none ∨
        (∃ v, jsGet o "include_docs" = some v ∧ truthy v = false)) →
      jsGet (applyIdxOptions o) "include_docs" = some (JVal.bool true)) ∧
    (∀ v, jsGet o "limit" = some v → truthy v = true →
      jsGet (applyIdxOptions o) "limit" = some v) ∧
    ((jsGet o "limit" = none ∨ (∃ v, jsGet o "limit" = some v ∧ truthy v = false)) →
      jsGet (applyIdxOptions o) "limit" = some (JVal.num 200)) ∧
    (∀ v, jsGet o "sort" = some v → truthy v = true →
      jsGet (applyIdxOptions o) "sort" = some (JVal.str (jsonStringify v))) := by
  refine ⟨?_, ?_, ?_, ?_, ?_⟩
  · intro v hv ht
    simp only [applyIdxOptions]
    rw [jsGet_applySortOption_ne _ _ (by decide)]
    simp [jsGet_jsSet, jsOrU, hv, ht]
  · intro h
    simp only [applyIdxOptions]
    rw [jsGet_applySortOption_ne _ _ (by decide)]
    rcases h with h | ⟨v, hv, ht⟩
    · simp [jsGet_jsSet, jsOrU, h]
    · simp [jsGet_jsSet, jsOrU, hv, ht]
  · intro v hv ht
    simp only [applyIdxOptions]
    rw [jsGet_applySortOption_ne _ _ (by decide)]
    simp [jsGet_jsSet, jsOrU, hv, ht]
  · intro h
    simp only [applyIdxOptions]
    rw [jsGet_applySortOption_ne _ _ (by decide)]
    rcases h with h | ⟨v, hv, ht⟩
    · simp [jsGet_jsSet, jsOrU, h]
    · simp [jsGet_jsSet, jsOrU, hv, ht]
  · intro v hv ht
    simp only [applyIdxOptions]
    apply jsGet_applySortOption_sort
    · simp [jsGet_jsSet, hv]
    · exact ht

/-- Witness for the amended C8 at a concrete options object. -/
theorem idxOptions_defaults_amended_witness :
    jsGet (applyIdxOptions [("limit", JVal.num 50), ("sort", JVal.arr [JVal.str "name"])])
      "limit" = some (JVal.num 50) ∧
    jsGet (applyIdxOptions [("limit", JVal.num 50), ("sort", JVal.arr [JVal.str "name"])])
      "include_docs" = some (JVal.bool true) ∧
    jsGet (applyIdxOptions [("limit", JVal.num 50), ("sort", JVal.arr [JVal.str "name"])])
      "sort" = some (JVal.str (jsonStringify (JVal.arr [JVal.str "name"]))) :=
  ⟨(idxOptions_defaults_amended
      [("limit", JVal.num 50), ("sort", JVal.arr [JVal.str "name"])]).2.2.1
      (JVal.num 50) rfl rfl,
   (idxOptions_defaults_amended
      [("limit", JVal.num 50), ("sort", JVal.arr [JVal.str "name"])]).2.1
      (Or.inl rfl),
   (idxOptions_defaults_amended
      [("limit", JVal.num 50), ("sort", JVal.arr [JVal.str "name"])]).2.2.2.2
      (JVal.arr [JVal.str "name"]) rfl rfl⟩

/-- C9 counterexample: on a hard backend error (description not `"missing"`)
the outbound message IS still emitted (`node.send` at line 379 runs on every
path), refuting that message processing halts with no outbound message. -/
theorem sendDocument_error_still_sends_cex :
    (sendDocumentOnPayload (some ⟨some 409, "conflict"⟩) JVal.null none "orders").sent
      = true ∧
    (sendDocumentOnPayload (some ⟨some 409, "conflict"⟩) JVal.null none "orders").errs
      = ["conflict"] ∧
    ("conflict" : String) ≠ "missing" :=
  ⟨rfl, rfl, by decide⟩

/-- C9 (amended): on every read-path backend error other than `"missing"`,
the gateway reports the error and still emits the outbound message with a
`null` payload — the send is unconditional on every path. -/
theorem sendDocument_error_reported_and_sent_amended (err : Option JsErr)
    (body : JVal) (inputId : Option JVal) (db : String) :
    (sendDocumentOnPayload err body inputId db).sent = true ∧
    (∀ e, err = some e → e.description ≠ "missing" →
      (sendDocumentOnPayload err body inputId db).errs = [e.description] ∧
      (sendDocumentOnPayload err body inputId db).payload = JVal.null ∧
      (sendDocumentOnPayload err body inputId db).warns = []) := by
  constructor
  · rcases err with _ | e
    · simp [sendDocumentOnPayload]
    · by_cases h : e.description = "missing" <;> simp [sendDocumentOnPayload, h]
  · rintro e rfl h
    simp [sendDocumentOnPayload, h]

/-- Witness for the amended C9 at a concrete connection error. -/
theorem sendDocument_error_reported_and_sent_amended_witness :
    (sendDocumentOnPayload (some ⟨none, "socket hang up"⟩) JVal.null none "db1").sent
      = true ∧
    (sendDocumentOnPayload (some ⟨none, "socket hang up"⟩) JVal.null none "db1").errs
      = ["socket hang up"] :=
  ⟨(sendDocument_error_reported_and_sent_amended (some ⟨none, "socket hang up"⟩)
      JVal.null none "db1").1,
   ((sendDocument_error_reported_and_sent_amended (some ⟨none, "socket hang up"⟩)
      JVal.null none "db1").2 ⟨none, "socket hang up"⟩ rfl (by decide)).1⟩

/-- C10: for an object payload with an `id` field, the extracted identifier
is the `id` value when that value is truthy, else the `_id` value — which is
`undefined` (not the payload itself) when `_id` is absent. -/
theorem getDocumentId_id_precedence (o : JObj) (idv : JVal)
    (h : jsGet o "id" = some idv) :
    (truthy idv = true → getDocumentId (JVal.obj o) = some idv) ∧
    (truthy idv = false → getDocumentId (JVal.obj o) = jsGet o "_id") := by
  constructor
  · intro ht
    simp only [getDocumentId, h]
    simp [ht]
  · intro ht
    simp only [getDocumentId, h]
    simp [ht]

/-- Witness for C10: a truthy `id` wins over `_id`; a falsy `id` falls back
to the `_id` value. -/
theorem getDocumentId_id_precedence_witness :
    getDocumentId (JVal.obj [("id", JVal.str "x"), ("_id", JVal.str "y")]) =
      some (JVal.str "x") ∧
    getDocumentId (JVal.obj [("id", JVal.str ""), ("_id", JVal.str "fallback")]) =
      some (JVal.str "fallback") :=
  ⟨(getDocumentId_id_precedence [("id", JVal.str "x"), ("_id", JVal.str "y")]
      (JVal.str "x") rfl).1 rfl,
   (getDocumentId_id_precedence [("id", JVal.str ""), ("_id", JVal.str "fallback")]
      (JVal.str "") rfl).2 rfl⟩

end CloudantCF

